import Mathlib

/-!
Verification of the authentic-execution runtime core
(`src/example/output/src/__authentic_execution.rs`).

The module's state is the connection table `CONNECTIONS : HashMap<u16, Connection>`,
modelled here as an association list with unique-key map operations
(`lookupC`, `updateC`, `insertC`).  Machine integers (`u8`, `u16`) are
modelled as `Nat`; the big-endian codecs `data_to_u16` / `u16_to_data`
truncate exactly as the Rust casts do.  The external crates
(`reactive_crypto`, `base64`, `reactive_net`) are collaborators outside
this repository; their interface is modelled by the `Crypto` oracle
structure (an arbitrary AEAD encrypt/decrypt pair, the `Encryption`
selector decoder `from_u8`, and the base64 decoder applied to the module
master key).  All theorems quantify over this oracle, so they hold for
any behaviour of the external crypto library.
-/

namespace AuthenticExecution

/-- Result codes of `reactive_net::ResultCode` used by this module. -/
inductive ResultCode where
  | Ok
  | IllegalCommand
  | IllegalPayload
  | InternalError
  | BadRequest
  | CryptoError
  | GenericError
deriving DecidableEq, Repr

/-- `reactive_net::ResultMessage`: a result code plus an optional byte payload. -/
structure ResultMessage where
  code : ResultCode
  data : Option (List Nat)
deriving DecidableEq, Repr

/-- `success(data)` builds a `ResultMessage` with code `Ok`. -/
def success (data : Option (List Nat)) : ResultMessage :=
  ResultMessage.mk ResultCode.Ok data

/-- `failure(code, data)` builds a `ResultMessage` with the given failure code. -/
def failure (code : ResultCode) (data : Option (List Nat)) : ResultMessage :=
  ResultMessage.mk code data

/-- The AEAD algorithm selector `reactive_crypto::Encryption`.  Only `Aes`
is named by the module source (it is the fixed key-unwrapping algorithm);
which bytes decode to which selector is left to the external oracle. -/
inductive Encryption where
  | Aes
  | Spongent
deriving DecidableEq, Repr

/-- Command codes of `reactive_net::CommandCode` relevant here; the module
only ever emits `ModuleOutput`. -/
inductive CommandCode where
  | ModuleOutput
  | RemoteOutput
  | Ping
deriving DecidableEq, Repr

/-- `reactive_net::CommandMessage`: a command code plus an optional payload. -/
structure CommandMessage where
  code : CommandCode
  payload : Option (List Nat)
deriving DecidableEq, Repr

/-- Oracle for the external collaborators: `reactive_crypto::decrypt`,
`reactive_crypto::encrypt` (arguments: data, key, associated data,
algorithm; `none` models `Err(_)`), `Encryption::from_u8`, the `base64`
decoder, and the module master key `MODULE_KEY` it is applied to. -/
structure Crypto where
  decrypt : List Nat → List Nat → List Nat → Encryption → Option (List Nat)
  encrypt : List Nat → List Nat → List Nat → Encryption → Option (List Nat)
  fromU8 : Nat → Option Encryption
  base64decode : String → Option (List Nat)
  moduleKey : String

/-- The per-connection security state (`connection::Connection`). -/
structure Connection where
  index : Nat
  nonce : Nat
  key : List Nat
  encryption : Encryption
deriving DecidableEq, Repr

/-- `Connection::increment_nonce`: `self.nonce += 1`, unchecked. -/
def Connection.increment_nonce (c : Connection) : Connection :=
  { c with nonce := c.nonce + 1 }

/-- The connection table `CONNECTIONS`, a map from `u16` connection id to
`Connection`, modelled as an association list. -/
abbrev ConnTable : Type := List (Nat × Connection)

/-- `HashMap::get` on the connection table. -/
def lookupC (k : Nat) : ConnTable → Option Connection
  | [] => none
  | (k2, c) :: rest => if k2 = k then some c else lookupC k rest

/-- In-place mutation through `HashMap::get_mut`: apply `f` to the entry at
key `k` (the first occurrence, which is the only one for a map). -/
def updateC (k : Nat) (f : Connection → Connection) : ConnTable → ConnTable
  | [] => []
  | (k2, c) :: rest => if k2 = k then (k2, f c) :: rest else (k2, c) :: updateC k f rest

/-- `HashMap::insert`: bind `k` to `c`, replacing any existing binding. -/
def insertC (k : Nat) (c : Connection) : ConnTable → ConnTable
  | [] => [(k, c)]
  | (k2, c2) :: rest => if k2 = k then (k, c) :: rest else (k2, c2) :: insertC k c rest

/-- `add_connection(conn_id, conn)`: `CONNECTIONS.insert(conn_id, conn)`. -/
def add_connection (conn_id : Nat) (conn : Connection) (map : ConnTable) : ConnTable :=
  insertC conn_id conn map

/-- `data_to_u16`: `u16::from_be_bytes([data[0], data[1]])`. -/
def data_to_u16 (data : List Nat) : Nat :=
  (data.headD 0) % 256 * 256 + ((data.drop 1).headD 0) % 256

/-- `u16_to_data`: `val.to_be_bytes()` for a `u16`. -/
def u16_to_data (val : Nat) : List Nat :=
  [val / 256 % 256, val % 256]

/-- `MODULE_ID` constant of the example module. -/
def MODULE_ID : Nat := 1

/-- `EM_PORT` constant of the example module. -/
def EM_PORT : Nat := 5000

/-- `handle_entrypoint(data)`: the Entry Router, the only external interface.
Dispatch tables are deployment-supplied; the router threads the connection
table through the chosen handler. -/
def handle_entrypoint
    (entrypoints : Nat → Option (List Nat → ConnTable → ResultMessage × ConnTable))
    (data : List Nat) (st : ConnTable) : ResultMessage × ConnTable :=
  if data.length < 2 then (failure ResultCode.IllegalPayload none, st)
  else
    match entrypoints (data_to_u16 data) with
    | none => (failure ResultCode.BadRequest none, st)
    | some entry => entry (data.drop 2) st

/-- `set_key(enc, conn_id, index, nonce, cipher)`: unwrap a delivered session
key with the base64-decoded master key under `Encryption::Aes`, with
associated data `enc ‖ conn_id ‖ index ‖ nonce`, then install the new
connection record with nonce 0. -/
def set_key (C : Crypto) (enc : Nat) (conn_id index nonce cipher : List Nat)
    (map : ConnTable) : ResultMessage × ConnTable :=
  let ad := enc :: (conn_id ++ index ++ nonce)
  match C.base64decode C.moduleKey with
  | none => (failure ResultCode.InternalError none, map)
  | some decoded_key =>
    match C.decrypt cipher decoded_key ad Encryption.Aes with
    | none => (failure ResultCode.CryptoError none, map)
    | some key =>
      match C.fromU8 enc with
      | none => (failure ResultCode.CryptoError none, map)
      | some enc_type =>
        let conn := Connection.mk (data_to_u16 index) 0 key enc_type
        (success none, add_connection (data_to_u16 conn_id) conn map)

/-- `set_key_wrapper(data)`: payload `[encryption_type - conn_id - index - nonce - cipher]`,
minimum 7 bytes. -/
def set_key_wrapper (C : Crypto) (data : List Nat) (map : ConnTable) :
    ResultMessage × ConnTable :=
  if data.length < 7 then (failure ResultCode.IllegalPayload none, map)
  else
    set_key C (data.headD 0) ((data.drop 1).take 2) ((data.drop 3).take 2)
      ((data.drop 5).take 2) (data.drop 7) map

/-- `handle_input(conn_id, payload)`: decrypt with the record's key and
algorithm under associated data `u16_to_data(nonce)`, advance the nonce on
success, then invoke the registered input handler.  `inputs` models the
deployment-supplied `INPUTS` table (`true` iff a handler is registered;
the handler itself returns unit, so only its presence is observable). -/
def handle_input (C : Crypto) (inputs : Nat → Bool) (conn_id : Nat)
    (payload : List Nat) (map : ConnTable) : ResultMessage × ConnTable :=
  match lookupC conn_id map with
  | none => (failure ResultCode.BadRequest none, map)
  | some conn =>
    match C.decrypt payload conn.key (u16_to_data conn.nonce) conn.encryption with
    | none => (failure ResultCode.CryptoError none, map)
    | some _data =>
      let map2 := updateC conn_id Connection.increment_nonce map
      if inputs conn.index then (success none, map2)
      else (failure ResultCode.BadRequest none, map2)

/-- `handle_input_wrapper(data)`: payload `[conn_id - payload]`, minimum 2 bytes. -/
def handle_input_wrapper (C : Crypto) (inputs : Nat → Bool) (data : List Nat)
    (map : ConnTable) : ResultMessage × ConnTable :=
  if data.length < 2 then (failure ResultCode.IllegalPayload none, map)
  else handle_input C inputs (data_to_u16 data) (data.drop 2) map

/-- `handle_output(index, data)`: for every connection bound to `index`,
encrypt `data` under the current nonce, advance the nonce and forward the
ciphertext tagged with the connection id; the first encryption failure
returns immediately, leaving all remaining entries untouched.  The second
component collects the `(conn_id, ciphertext)` pairs handed to `send_to_em`. -/
def handle_output (C : Crypto) (index : Nat) (data : List Nat) :
    ConnTable → ConnTable × List (Nat × List Nat)
  | [] => ([], [])
  | (cid, conn) :: rest =>
    if conn.index = index then
      match C.encrypt data conn.key (u16_to_data conn.nonce) conn.encryption with
      | none => ((cid, conn) :: rest, [])
      | some payload =>
        let r := handle_output C index data rest
        ((cid, Connection.increment_nonce conn) :: r.1, (cid, payload) :: r.2)
    else
      let r := handle_output C index data rest
      ((cid, conn) :: r.1, r.2)

/-- `send_to_em(conn_id, data)`: drop if the ciphertext exceeds 65531 bytes,
otherwise emit one `ModuleOutput` command whose payload is the 2 big-endian
bytes of `conn_id` followed by the ciphertext.  `none` models a dropped
message (the network write itself is external best-effort I/O). -/
def send_to_em (conn_id : Nat) (data : List Nat) : Option CommandMessage :=
  if data.length > 65531 then none
  else some (CommandMessage.mk CommandCode.ModuleOutput (some (u16_to_data conn_id ++ data)))

/-- The example deployment's `INPUTS` table: one handler at logical index 2. -/
def INPUTS (i : Nat) : Bool := i == 2

/-- The example deployment's `ENTRYPOINTS` table: 0 = key establishment,
1 = inbound dispatch, 2 = the application entrypoint `press_button`. -/
def ENTRYPOINTS (C : Crypto)
    (press_button : List Nat → ConnTable → ResultMessage × ConnTable)
    (i : Nat) : Option (List Nat → ConnTable → ResultMessage × ConnTable) :=
  if i = 0 then some (set_key_wrapper C)
  else if i = 1 then some (handle_input_wrapper C INPUTS)
  else if i = 2 then some press_button
  else none

/-! ## Map lemmas -/

theorem lookupC_updateC_self (k : Nat) (f : Connection → Connection) (m : ConnTable) :
    lookupC k (updateC k f m) = (lookupC k m).map f := by
  induction m with
  | nil => rfl
  | cons p rest ih =>
    obtain ⟨k2, c⟩ := p
    by_cases h : k2 = k
    · simp [lookupC, updateC, h]
    · simp [lookupC, updateC, h, ih]

theorem lookupC_insertC_self (k : Nat) (c : Connection) (m : ConnTable) :
    lookupC k (insertC k c m) = some c := by
  induction m with
  | nil => simp [insertC, lookupC]
  | cons p rest ih =>
    obtain ⟨k2, c2⟩ := p
    by_cases h : k2 = k
    · simp [insertC, lookupC, h]
    · simp [insertC, lookupC, h, ih]

theorem lookupC_insertC_other (k k2 : Nat) (c : Connection) (m : ConnTable)
    (hne : k2 ≠ k) : lookupC k2 (insertC k c m) = lookupC k2 m := by
  have hk : ¬ k = k2 := fun e => hne e.symm
  induction m with
  | nil => simp [insertC, lookupC, hk]
  | cons p rest ih =>
    obtain ⟨k3, c3⟩ := p
    by_cases h : k3 = k
    · subst h
      simp [insertC, lookupC, hk]
    · by_cases h2 : k3 = k2
      · subst h2
        simp [insertC, lookupC, hne]
      · simp [insertC, lookupC, h, h2, ih]

/-! ## Claims -/

/-- Claim C5: the Entry Router `handle_entrypoint` returns `IllegalPayload`
for inputs shorter than 2 bytes, `BadRequest` when the big-endian
`entry_id` formed by the first 2 bytes has no registered handler, and
otherwise exactly the registered handler's result on the remaining bytes;
in the two failure cases and in the dispatch itself the router changes no
state of its own. -/
theorem claim_C5 (eps : Nat → Option (List Nat → ConnTable → ResultMessage × ConnTable))
    (data : List Nat) (st : ConnTable) :
    (data.length < 2 →
      handle_entrypoint eps data st = (failure ResultCode.IllegalPayload none, st)) ∧
    (2 ≤ data.length → eps (data_to_u16 data) = none →
      handle_entrypoint eps data st = (failure ResultCode.BadRequest none, st)) ∧
    (∀ entry, 2 ≤ data.length → eps (data_to_u16 data) = some entry →
      handle_entrypoint eps data st = entry (data.drop 2) st) := by
  refine ⟨fun h => ?_, fun h hnone => ?_, fun entry h hsome => ?_⟩
  · simp [handle_entrypoint, h]
  · simp [handle_entrypoint, Nat.not_lt.mpr h, hnone]
  · simp [handle_entrypoint, Nat.not_lt.mpr h, hsome]

/-- Claim C5 witness: the three branches at concrete inputs. -/
theorem claim_C5_witness :
    handle_entrypoint (fun _ => some (fun d s => (success (some d), s))) [9] [] =
      (failure ResultCode.IllegalPayload none, []) ∧
    handle_entrypoint (fun _ => none) [0, 5, 9] [] =
      (failure ResultCode.BadRequest none, []) ∧
    handle_entrypoint (fun _ => some (fun d s => (success (some d), s))) [0, 5, 9] [] =
      (success (some [9]), []) :=
  ⟨(claim_C5 _ [9] []).1 (by decide),
   (claim_C5 _ [0, 5, 9] []).2.1 (by decide) rfl,
   (claim_C5 _ [0, 5, 9] []).2.2 _ (by decide) rfl⟩

/-- Claim C8: inbound dispatch on a connection id absent from the table
returns `BadRequest` and leaves the table unchanged (the result is the
same for every crypto oracle, so no decryption outcome is consulted). -/
theorem claim_C8 (C : Crypto) (inputs : Nat → Bool) (conn_id : Nat)
    (payload : List Nat) (map : ConnTable) (h : lookupC conn_id map = none) :
    handle_input C inputs conn_id payload map = (failure ResultCode.BadRequest none, map) := by
  simp [handle_input, h]

/-- Claim C8 witness: unknown connection id 7 on a nonempty table. -/
theorem claim_C8_witness :
    handle_input
      (Crypto.mk (fun _ _ _ _ => some [1]) (fun _ _ _ _ => some [2])
        (fun n => if n = 0 then some Encryption.Aes else none) (fun _ => some [9]) "key")
      INPUTS 7 [1, 2, 3] [(4, Connection.mk 2 0 [5] Encryption.Aes)] =
      (failure ResultCode.BadRequest none, [(4, Connection.mk 2 0 [5] Encryption.Aes)]) :=
  claim_C8 _ INPUTS 7 [1, 2, 3] _ (by decide)

/-- A concrete crypto oracle for instantiating the theorems: every
operation succeeds. -/
def testCrypto : Crypto :=
  Crypto.mk (fun _ _ _ _ => some [1]) (fun _ _ _ _ => some [2])
    (fun n => if n = 0 then some Encryption.Aes else none) (fun _ => some [9]) "key"

/-- A concrete crypto oracle whose AEAD decryption always fails. -/
def cryptoNoDecrypt : Crypto :=
  { testCrypto with decrypt := fun _ _ _ _ => none }

/-- A concrete crypto oracle whose base64 decoding always fails. -/
def cryptoNoB64 : Crypto :=
  { testCrypto with base64decode := fun _ => none }

/-- Claim C1: for a registered connection id, inbound dispatch decrypts the
payload with the record's session key and algorithm under associated data
equal to the current nonce as 2 big-endian bytes; on decryption failure it
returns `CryptoError` with the whole table (hence the nonce) unchanged, and
on success the record's nonce is advanced by exactly 1. -/
theorem claim_C1 (C : Crypto) (inputs : Nat → Bool) (conn_id : Nat)
    (payload : List Nat) (map : ConnTable) (conn : Connection)
    (h : lookupC conn_id map = some conn) :
    (C.decrypt payload conn.key [conn.nonce / 256 % 256, conn.nonce % 256] conn.encryption
        = none →
      handle_input C inputs conn_id payload map = (failure ResultCode.CryptoError none, map)) ∧
    (∀ d, C.decrypt payload conn.key [conn.nonce / 256 % 256, conn.nonce % 256] conn.encryption
        = some d →
      lookupC conn_id (handle_input C inputs conn_id payload map).2 =
        some { conn with nonce := conn.nonce + 1 }) := by
  constructor
  · intro hdec
    simp [handle_input, h, u16_to_data, hdec]
  · intro d hdec
    have : (handle_input C inputs conn_id payload map).2 =
        updateC conn_id Connection.increment_nonce map := by
      simp only [handle_input, h, u16_to_data, hdec]
      by_cases hi : inputs conn.index <;> simp [hi]
    rw [this, lookupC_updateC_self, h]
    rfl

/-- Claim C1 witness: both branches at a concrete table and payload. -/
theorem claim_C1_witness :
    handle_input cryptoNoDecrypt INPUTS 4 [1] [(4, Connection.mk 2 0 [5] Encryption.Aes)] =
      (failure ResultCode.CryptoError none, [(4, Connection.mk 2 0 [5] Encryption.Aes)]) ∧
    lookupC 4 (handle_input testCrypto INPUTS 4 [1]
        [(4, Connection.mk 2 0 [5] Encryption.Aes)]).2 =
      some (Connection.mk 2 1 [5] Encryption.Aes) :=
  ⟨(claim_C1 cryptoNoDecrypt INPUTS 4 [1] [(4, Connection.mk 2 0 [5] Encryption.Aes)]
      (Connection.mk 2 0 [5] Encryption.Aes) (by decide)).1 rfl,
   (claim_C1 testCrypto INPUTS 4 [1] [(4, Connection.mk 2 0 [5] Encryption.Aes)]
      (Connection.mk 2 0 [5] Encryption.Aes) (by decide)).2 [1] rfl⟩

/-- Claim C4: when decryption succeeds but the record's logical index has no
registered input handler, inbound dispatch returns `BadRequest` while the
nonce has nevertheless already been advanced by 1 in the resulting table. -/
theorem claim_C4 (C : Crypto) (inputs : Nat → Bool) (conn_id : Nat)
    (payload : List Nat) (map : ConnTable) (conn : Connection) (d : List Nat)
    (h : lookupC conn_id map = some conn)
    (hdec : C.decrypt payload conn.key (u16_to_data conn.nonce) conn.encryption = some d)
    (hin : inputs conn.index = false) :
    handle_input C inputs conn_id payload map =
      (failure ResultCode.BadRequest none, updateC conn_id Connection.increment_nonce map) ∧
    lookupC conn_id (handle_input C inputs conn_id payload map).2 =
      some { conn with nonce := conn.nonce + 1 } := by
  have hres : handle_input C inputs conn_id payload map =
      (failure ResultCode.BadRequest none, updateC conn_id Connection.increment_nonce map) := by
    simp [handle_input, h, hdec, hin]
  refine ⟨hres, ?_⟩
  rw [hres]
  show lookupC conn_id (updateC conn_id Connection.increment_nonce map) = _
  rw [lookupC_updateC_self, h]
  rfl

/-- Claim C4 witness: a record at logical index 3, which has no handler in
the example `INPUTS` table; decryption succeeds under `testCrypto`. -/
theorem claim_C4_witness :
    handle_input testCrypto INPUTS 4 [1] [(4, Connection.mk 3 0 [5] Encryption.Aes)] =
      (failure ResultCode.BadRequest none, [(4, Connection.mk 3 1 [5] Encryption.Aes)]) ∧
    lookupC 4 (handle_input testCrypto INPUTS 4 [1]
        [(4, Connection.mk 3 0 [5] Encryption.Aes)]).2 =
      some (Connection.mk 3 1 [5] Encryption.Aes) :=
  claim_C4 testCrypto INPUTS 4 [1] [(4, Connection.mk 3 0 [5] Encryption.Aes)]
    (Connection.mk 3 0 [5] Encryption.Aes) [1] (by decide) rfl (by decide)

/-- Claim C2: every failing step of key establishment leaves the connection
table completely unchanged — master-key base64 decoding failure yields
`InternalError`, AEAD unwrap failure under the associated data
`enc ‖ conn_id ‖ index ‖ nonce` yields `CryptoError`, and an unrecognized
algorithm byte yields `CryptoError`; in all three cases the table returned
is exactly the input table. -/
theorem claim_C2 (C : Crypto) (enc : Nat) (conn_id index nonce cipher : List Nat)
    (map : ConnTable) :
    (C.base64decode C.moduleKey = none →
      set_key C enc conn_id index nonce cipher map =
        (failure ResultCode.InternalError none, map)) ∧
    (∀ k, C.base64decode C.moduleKey = some k →
      C.decrypt cipher k (enc :: (conn_id ++ index ++ nonce)) Encryption.Aes = none →
      set_key C enc conn_id index nonce cipher map =
        (failure ResultCode.CryptoError none, map)) ∧
    (∀ k s, C.base64decode C.moduleKey = some k →
      C.decrypt cipher k (enc :: (conn_id ++ index ++ nonce)) Encryption.Aes = some s →
      C.fromU8 enc = none →
      set_key C enc conn_id index nonce cipher map =
        (failure ResultCode.CryptoError none, map)) := by
  refine ⟨fun hb => ?_, fun k hb hd => ?_, fun k s hb hd hf => ?_⟩
  · simp [set_key, hb]
  · rw [List.append_assoc] at hd
    simp [set_key, hb, hd]
  · rw [List.append_assoc] at hd
    simp [set_key, hb, hd, hf]

/-- Claim C2 witness: the three failing steps at concrete inputs, table
unchanged each time. -/
theorem claim_C2_witness :
    set_key cryptoNoB64 0 [0, 1] [0, 2] [0, 0] [9, 9] [] =
      (failure ResultCode.InternalError none, []) ∧
    set_key cryptoNoDecrypt 0 [0, 1] [0, 2] [0, 0] [9, 9] [] =
      (failure ResultCode.CryptoError none, []) ∧
    set_key testCrypto 5 [0, 1] [0, 2] [0, 0] [9, 9] [] =
      (failure ResultCode.CryptoError none, []) :=
  ⟨(claim_C2 cryptoNoB64 0 [0, 1] [0, 2] [0, 0] [9, 9] []).1 rfl,
   (claim_C2 cryptoNoDecrypt 0 [0, 1] [0, 2] [0, 0] [9, 9] []).2.1 [9] rfl rfl,
   (claim_C2 testCrypto 5 [0, 1] [0, 2] [0, 0] [9, 9] []).2.2 [9] [1] rfl rfl (by decide)⟩

/-- Claim C6: when every step of key establishment succeeds, the new record
`{logical_index, nonce := 0, session_key := decrypted plaintext, algorithm}`
is inserted under the payload's connection id (overwriting any prior record
for that id, all other ids untouched) and the operation returns `Ok` with no
payload. -/
theorem claim_C6 (C : Crypto) (enc : Nat) (conn_id index nonce cipher : List Nat)
    (map : ConnTable) (k s : List Nat) (e : Encryption)
    (hb : C.base64decode C.moduleKey = some k)
    (hd : C.decrypt cipher k (enc :: (conn_id ++ index ++ nonce)) Encryption.Aes = some s)
    (hf : C.fromU8 enc = some e) :
    set_key C enc conn_id index nonce cipher map =
      (success none,
       add_connection (data_to_u16 conn_id) (Connection.mk (data_to_u16 index) 0 s e) map) ∧
    lookupC (data_to_u16 conn_id) (set_key C enc conn_id index nonce cipher map).2 =
      some (Connection.mk (data_to_u16 index) 0 s e) ∧
    (∀ k2, k2 ≠ data_to_u16 conn_id →
      lookupC k2 (set_key C enc conn_id index nonce cipher map).2 = lookupC k2 map) := by
  have hres : set_key C enc conn_id index nonce cipher map =
      (success none,
       add_connection (data_to_u16 conn_id) (Connection.mk (data_to_u16 index) 0 s e) map) := by
    rw [List.append_assoc] at hd
    simp [set_key, hb, hd, hf]
  refine ⟨hres, ?_, fun k2 hk2 => ?_⟩
  · rw [hres]
    exact lookupC_insertC_self _ _ _
  · rw [hres]
    exact lookupC_insertC_other _ _ _ _ hk2

/-- Claim C6 witness: successful establishment for connection id 1
overwrites the stale record previously stored under id 1 and leaves id 3
alone. -/
theorem claim_C6_witness :
    set_key testCrypto 0 [0, 1] [0, 2] [0, 0] [9]
        [(1, Connection.mk 9 7 [0] Encryption.Spongent)] =
      (success none, [(1, Connection.mk 2 0 [1] Encryption.Aes)]) ∧
    lookupC 1 (set_key testCrypto 0 [0, 1] [0, 2] [0, 0] [9]
        [(1, Connection.mk 9 7 [0] Encryption.Spongent)]).2 =
      some (Connection.mk 2 0 [1] Encryption.Aes) ∧
    lookupC 3 (set_key testCrypto 0 [0, 1] [0, 2] [0, 0] [9]
        [(1, Connection.mk 9 7 [0] Encryption.Spongent)]).2 = none := by
  have h := claim_C6 testCrypto 0 [0, 1] [0, 2] [0, 0] [9]
    [(1, Connection.mk 9 7 [0] Encryption.Spongent)] [9] [1] Encryption.Aes rfl rfl (by decide)
  exact ⟨h.1, h.2.1, (h.2.2 3 (by decide)).trans (by decide)⟩

/-- Claim C7: key establishment rejects payloads shorter than 7 bytes with
`IllegalPayload`; otherwise the associated data is exactly the first 7
payload bytes verbatim (`algorithm_byte ‖ connection_id ‖ logical_index ‖
nonce`) and the ciphertext (bytes 7..) is unwrapped with the base64-decoded
master key under the fixed algorithm `Encryption.Aes`, regardless of the
algorithm byte, which only selects the resulting session's algorithm via
`from_u8`. -/
theorem claim_C7 (C : Crypto) (data : List Nat) (map : ConnTable) :
    (data.length < 7 →
      set_key_wrapper C data map = (failure ResultCode.IllegalPayload none, map)) ∧
    (7 ≤ data.length →
      set_key_wrapper C data map =
        match C.base64decode C.moduleKey with
        | none => (failure ResultCode.InternalError none, map)
        | some k =>
          match C.decrypt (data.drop 7) k (data.take 7) Encryption.Aes with
          | none => (failure ResultCode.CryptoError none, map)
          | some s =>
            match C.fromU8 (data.headD 0) with
            | none => (failure ResultCode.CryptoError none, map)
            | some e =>
              (success none,
               add_connection (data_to_u16 (data.drop 1))
                 (Connection.mk (data_to_u16 (data.drop 3)) 0 s e) map)) := by
  constructor
  · intro h
    simp [set_key_wrapper, h]
  · intro h
    rcases data with _ | ⟨a, data⟩
    · simp at h
    rcases data with _ | ⟨b, data⟩
    · simp at h
    rcases data with _ | ⟨c, data⟩
    · simp at h
    rcases data with _ | ⟨d, data⟩
    · simp at h
    rcases data with _ | ⟨e2, data⟩
    · simp at h
    rcases data with _ | ⟨f2, data⟩
    · simp at h
    rcases data with _ | ⟨g2, data⟩
    · simp at h
    rcases hb : C.base64decode C.moduleKey with _ | k
    · simp [set_key_wrapper, set_key, hb]
    · rcases hd : C.decrypt data k [a, b, c, d, e2, f2, g2] Encryption.Aes with _ | s
      · simp [set_key_wrapper, set_key, hb, hd]
      · rcases hf : C.fromU8 a with _ | e3
        · simp [set_key_wrapper, set_key, hb, hd, hf]
        · simp [set_key_wrapper, set_key, hb, hd, hf, data_to_u16]

/-- Claim C7 witness: a short payload is rejected; an 8-byte payload under
`testCrypto` runs the full pipeline with associated data equal to its first
7 bytes. -/
theorem claim_C7_witness :
    set_key_wrapper testCrypto [1, 2, 3] [] = (failure ResultCode.IllegalPayload none, []) ∧
    set_key_wrapper testCrypto [0, 0, 1, 0, 2, 0, 0, 9] [] =
      (success none, [(1, Connection.mk 2 0 [1] Encryption.Aes)]) :=
  ⟨(claim_C7 testCrypto [1, 2, 3] []).1 (by decide),
   ((claim_C7 testCrypto [0, 0, 1, 0, 2, 0, 0, 9] []).2 (by decide)).trans (by decide)⟩

/-- A concrete crypto oracle whose encryption fails exactly for the session
key `[0]`. -/
def cryptoEncOn0 : Crypto :=
  { testCrypto with encrypt := fun _ k _ _ => if k = [0] then none else some [2] }

/-- Claim C3: outbound dispatch visits every record whose logical index
matches.  When every matching record encrypts successfully, each matching
record's nonce advances by exactly 1 and its ciphertext is handed to the EM
forwarder tagged with that record's connection id (non-matching records are
untouched).  When a matching record fails to encrypt, all records processed
before it are advanced and forwarded as usual, but the failing record and
every remaining record are left unchanged and nothing further is
forwarded. -/
theorem claim_C3 (C : Crypto) (index : Nat) (data : List Nat) :
    (∀ m : ConnTable,
      (∀ p ∈ m, p.2.index = index →
        C.encrypt data p.2.key (u16_to_data p.2.nonce) p.2.encryption ≠ none) →
      handle_output C index data m =
        (m.map (fun p =>
            if p.2.index = index then (p.1, Connection.increment_nonce p.2) else p),
         m.filterMap (fun p =>
            if p.2.index = index then
              (C.encrypt data p.2.key (u16_to_data p.2.nonce) p.2.encryption).map
                (fun ct => (p.1, ct))
            else none))) ∧
    (∀ (pre : ConnTable) (cid : Nat) (conn : Connection) (post : ConnTable),
      (∀ p ∈ pre, p.2.index = index →
        C.encrypt data p.2.key (u16_to_data p.2.nonce) p.2.encryption ≠ none) →
      conn.index = index →
      C.encrypt data conn.key (u16_to_data conn.nonce) conn.encryption = none →
      handle_output C index data (pre ++ (cid, conn) :: post) =
        (pre.map (fun p =>
            if p.2.index = index then (p.1, Connection.increment_nonce p.2) else p)
           ++ (cid, conn) :: post,
         pre.filterMap (fun p =>
            if p.2.index = index then
              (C.encrypt data p.2.key (u16_to_data p.2.nonce) p.2.encryption).map
                (fun ct => (p.1, ct))
            else none))) := by
  constructor
  · intro m
    induction m with
    | nil => intro _; rfl
    | cons p rest ih =>
      intro hall
      obtain ⟨cid, conn⟩ := p
      have hrest := fun q hq => hall q (List.mem_cons_of_mem _ hq)
      by_cases hidx : conn.index = index
      · rcases hct : C.encrypt data conn.key (u16_to_data conn.nonce) conn.encryption with _ | ct
        · exact absurd hct (hall (cid, conn) (List.mem_cons_self _ _) hidx)
        · simp [handle_output, hidx, hct, ih hrest]
      · simp [handle_output, hidx, ih hrest]
  · intro pre cid conn post
    induction pre with
    | nil =>
      intro _ hidx hct
      simp [handle_output, hidx, hct]
    | cons p rest ih =>
      intro hall hidx hct
      obtain ⟨cid2, conn2⟩ := p
      have hrest := fun q hq => hall q (List.mem_cons_of_mem _ hq)
      by_cases hidx2 : conn2.index = index
      · rcases hct2 : C.encrypt data conn2.key (u16_to_data conn2.nonce) conn2.encryption
          with _ | ct2
        · exact absurd hct2 (hall (cid2, conn2) (List.mem_cons_self _ _) hidx2)
        · simp [handle_output, hidx2, hct2, ih hrest hidx hct]
      · simp [handle_output, hidx2, ih hrest hidx hct]

/-- Claim C3 witness: fan-out to two connections on logical index 5 (both
advance and forward), and an aborting run where the second of three
matching connections fails, freezing the third. -/
theorem claim_C3_witness :
    handle_output testCrypto 5 [9]
        [(1, Connection.mk 5 0 [1] Encryption.Aes), (2, Connection.mk 5 3 [2] Encryption.Aes)] =
      ([(1, Connection.mk 5 1 [1] Encryption.Aes), (2, Connection.mk 5 4 [2] Encryption.Aes)],
       [(1, [2]), (2, [2])]) ∧
    handle_output cryptoEncOn0 5 [9]
        [(1, Connection.mk 5 0 [1] Encryption.Aes), (2, Connection.mk 5 0 [0] Encryption.Aes),
         (3, Connection.mk 5 0 [4] Encryption.Aes)] =
      ([(1, Connection.mk 5 1 [1] Encryption.Aes), (2, Connection.mk 5 0 [0] Encryption.Aes),
        (3, Connection.mk 5 0 [4] Encryption.Aes)],
       [(1, [2])]) :=
  ⟨((claim_C3 testCrypto 5 [9]).1
      [(1, Connection.mk 5 0 [1] Encryption.Aes), (2, Connection.mk 5 3 [2] Encryption.Aes)]
      (by decide)).trans (by decide),
   ((claim_C3 cryptoEncOn0 5 [9]).2
      [(1, Connection.mk 5 0 [1] Encryption.Aes)] 2 (Connection.mk 5 0 [0] Encryption.Aes)
      [(3, Connection.mk 5 0 [4] Encryption.Aes)]
      (by decide) rfl (by decide)).trans (by decide)⟩

/-- Claim C9: the EM forwarder drops every message whose ciphertext exceeds
65531 bytes; otherwise it emits a single module-output command whose
payload is exactly the 2 big-endian bytes of the connection id followed by
the ciphertext. -/
theorem claim_C9 (conn_id : Nat) (data : List Nat) :
    (data.length > 65531 → send_to_em conn_id data = none) ∧
    (data.length ≤ 65531 →
      send_to_em conn_id data =
        some (CommandMessage.mk CommandCode.ModuleOutput
          (some ([conn_id / 256 % 256, conn_id % 256] ++ data)))) := by
  constructor
  · intro h
    simp [send_to_em, h]
  · intro h
    simp [send_to_em, Nat.not_lt.mpr h, u16_to_data]

/-- Claim C9 witness: a 65532-byte ciphertext is dropped; a short one is
framed as `[conn_id_hi, conn_id_lo] ++ ciphertext`. -/
theorem claim_C9_witness :
    send_to_em 3 (List.replicate 65532 0) = none ∧
    send_to_em 3 [7] =
      some (CommandMessage.mk CommandCode.ModuleOutput (some [0, 3, 7])) :=
  ⟨(claim_C9 3 (List.replicate 65532 0)).1 (by rw [List.length_replicate]; omega),
   (claim_C9 3 [7]).2 (by decide)⟩

/-- Claim C10: nonce advancement is unchecked increment — at nonce 65535
`increment_nonce` computes 65536, which is outside the `u16` range (it
would panic under checked arithmetic and wrap to 0 under modulo-2^16
semantics, breaking strict monotonicity since 0 < 65535), and neither
inbound nor outbound dispatch guards against this: both advance the nonce
past 65535 whenever the cryptographic step succeeds. -/
theorem claim_C10 :
    (∀ c : Connection, c.nonce = 65535 →
      (Connection.increment_nonce c).nonce = 65536 ∧
      ¬ (Connection.increment_nonce c).nonce < 2 ^ 16 ∧
      (Connection.increment_nonce c).nonce % 2 ^ 16 = 0 ∧
      (Connection.increment_nonce c).nonce % 2 ^ 16 < c.nonce) ∧
    (∀ (C : Crypto) (inputs : Nat → Bool) (conn_id : Nat) (payload : List Nat)
        (map : ConnTable) (conn : Connection) (d : List Nat),
      lookupC conn_id map = some conn → conn.nonce = 65535 →
      C.decrypt payload conn.key (u16_to_data conn.nonce) conn.encryption = some d →
      lookupC conn_id (handle_input C inputs conn_id payload map).2 =
        some { conn with nonce := 65536 }) ∧
    (∀ (C : Crypto) (data : List Nat) (cid : Nat) (conn : Connection) (ct : List Nat),
      conn.nonce = 65535 →
      C.encrypt data conn.key (u16_to_data conn.nonce) conn.encryption = some ct →
      handle_output C conn.index data [(cid, conn)] =
        ([(cid, { conn with nonce := 65536 })], [(cid, ct)])) := by
  refine ⟨fun c hc => ?_, fun C inputs conn_id payload map conn d h hn hdec => ?_,
    fun C data cid conn ct hn hct => ?_⟩
  · simp [Connection.increment_nonce, hc]
  · have : (handle_input C inputs conn_id payload map).2 =
        updateC conn_id Connection.increment_nonce map := by
      simp only [handle_input, h, hdec]
      by_cases hi : inputs conn.index <;> simp [hi]
    rw [this, lookupC_updateC_self, h]
    simp [Connection.increment_nonce, hn]
  · rw [hn] at hct
    simp [handle_output, hct, Connection.increment_nonce, hn]

/-- Claim C10 witness: a record at nonce 65535 is pushed to 65536 by both
dispatch paths. -/
theorem claim_C10_witness :
    (Connection.increment_nonce (Connection.mk 2 65535 [5] Encryption.Aes)).nonce = 65536 ∧
    lookupC 7 (handle_input testCrypto INPUTS 7 [1]
        [(7, Connection.mk 2 65535 [5] Encryption.Aes)]).2 =
      some (Connection.mk 2 65536 [5] Encryption.Aes) ∧
    handle_output testCrypto 2 [9] [(7, Connection.mk 2 65535 [5] Encryption.Aes)] =
      ([(7, Connection.mk 2 65536 [5] Encryption.Aes)], [(7, [2])]) :=
  ⟨(claim_C10.1 (Connection.mk 2 65535 [5] Encryption.Aes) rfl).1,
   claim_C10.2.1 testCrypto INPUTS 7 [1] [(7, Connection.mk 2 65535 [5] Encryption.Aes)]
     (Connection.mk 2 65535 [5] Encryption.Aes) [1] (by decide) rfl rfl,
   claim_C10.2.2 testCrypto [9] 7 (Connection.mk 2 65535 [5] Encryption.Aes) [2] rfl rfl⟩

end AuthenticExecution
